import Mathlib

/-!
Verification development for the quickstart-prompt-generator CLI
(src/src/cli.py).  Python strings are embedded as lists of characters
(`PyStr`), interactive input as a list of lines consumed left to right,
and the persisted session file as an optional typed record.  Every
definition below is a direct translation of the corresponding Python
function; line references point into src/src/cli.py.
-/

/-- Python strings modelled as sequences of code points. -/
abbrev PyStr := List Char

/-- The whitespace characters stripped by `str.strip()` (ASCII part). -/
def isSpace (c : Char) : Bool :=
  c = ' ' || c = '\t' || c = '\n' || c = '\r' || c = '\x0b' || c = '\x0c'

/-- `str.strip()`: drop leading and trailing whitespace. -/
def pyStrip (s : PyStr) : PyStr :=
  ((s.dropWhile isSpace).reverse.dropWhile isSpace).reverse

/-- `str.lower()` (ASCII part). -/
def pyLower (s : PyStr) : PyStr := s.map Char.toLower

/-- `str.isdigit()` (ASCII part): nonempty string of decimal digits. -/
def pyIsDigit (s : PyStr) : Bool := !s.isEmpty && s.all Char.isDigit

/-- Numeric value of a digit string, as computed by `int()` on an
`isdigit` string. -/
def pyToNat (s : PyStr) : Nat := s.foldl (fun acc c => acc * 10 + (c.toNat - 48)) 0

/-- `str.split(sep)` for a one-character separator. -/
def pySplit (sep : Char) : PyStr → List PyStr
  | [] => [[]]
  | c :: rest =>
    if c = sep then [] :: pySplit sep rest
    else
      match pySplit sep rest with
      | [] => [[c]]
      | p :: ps => (c :: p) :: ps

/-- `int(x)` on a stripped token: optional sign followed by digits;
`none` models the `ValueError` raised on anything else. -/
def pyInt (s : PyStr) : Option Int :=
  match pyStrip s with
  | '+' :: ds => if pyIsDigit ds then some (Int.ofNat (pyToNat ds)) else none
  | '-' :: ds => if pyIsDigit ds then some (-(Int.ofNat (pyToNat ds))) else none
  | ds => if pyIsDigit ds then some (Int.ofNat (pyToNat ds)) else none

/-!
## Generation-mode session data (cli.py lines 27-62)

`SessionManager.__init__` (lines 30-39) fixes six keys.  For the
questionnaire engine the session is well typed, so it is embedded as a
structure with the same six fields.
-/

/-- The in-memory `session_data` dictionary of `SessionManager`,
with its six fixed keys (cli.py lines 31-38). -/
structure SessionData where
  sdk_name : PyStr
  sdk_language : PyStr
  sdk_repository : PyStr
  reference_links : List PyStr
  target_framework : PyStr
  style_preference : PyStr
deriving DecidableEq

/-- The default session contents set by `SessionManager.__init__`. -/
def defaultSession : SessionData :=
  ⟨[], [], [], [], [], []⟩

/-- Keys of the regular (non-collector) questions of
`_run_interactive_questionnaire` (cli.py lines 473-499). -/
inductive RegKey where
  | sdkName
  | sdkLanguage
  | sdkRepository
  | targetFramework
deriving DecidableEq

/-- One entry of the `questions` table: a regular prompt with its
required flag, or the reference-collection special handler. -/
inductive QKind where
  | regular (key : RegKey) (required : Bool)
  | refCollector
deriving DecidableEq

/-- The `questions` table of `_run_interactive_questionnaire`
(cli.py lines 473-499), in order. -/
def questions : List QKind :=
  [.regular .sdkName true,
   .regular .sdkLanguage true,
   .regular .sdkRepository false,
   .refCollector,
   .regular .targetFramework true]

/-- `session.session_data.get(key, '')` for a regular question key
(cli.py line 524); every key is present, so this is field access. -/
def sessGet (sess : SessionData) : RegKey → PyStr
  | .sdkName => sess.sdk_name
  | .sdkLanguage => sess.sdk_language
  | .sdkRepository => sess.sdk_repository
  | .targetFramework => sess.target_framework

/-- The `answers` dictionary accumulated by the questionnaire loop
(cli.py line 501); a key is `none` while not yet answered. -/
structure Answers where
  sdk_name : Option PyStr := none
  sdk_language : Option PyStr := none
  sdk_repository : Option PyStr := none
  target_framework : Option PyStr := none
  reference_links : Option (List PyStr) := none
  style_preference : Option PyStr := none
deriving DecidableEq

/-- The empty `answers = {}` dictionary (cli.py line 501). -/
def emptyAnswers : Answers := {}

/-- `answers[key] = value` for a regular question key (cli.py line 549). -/
def setAnswer (a : Answers) : RegKey → PyStr → Answers
  | .sdkName, v => { a with sdk_name := some v }
  | .sdkLanguage, v => { a with sdk_language := some v }
  | .sdkRepository, v => { a with sdk_repository := some v }
  | .targetFramework, v => { a with target_framework := some v }

/-!
## Reference-list collector (cli.py lines 558-637)
-/

/-- Result of the reference-entry loop of `_collect_references_with_back`
(cli.py lines 575-588). -/
inductive RefLoopRes where
  | back
  | cancel
  | done (links : List PyStr)
deriving DecidableEq

/-- The `while True` line-entry loop of `_collect_references_with_back`
(cli.py lines 575-588).  `click.prompt` with `default=''` yields the
typed line verbatim; an exhausted input stream models `click.Abort`,
which the function turns into `cancel`. -/
def collectLoop (acc : List PyStr) : List PyStr → RefLoopRes × List PyStr
  | [] => (.cancel, [])
  | line :: rest =>
    if pyLower line = "back".toList then (.back, rest)
    else if pyLower line = "cancel".toList then (.cancel, rest)
    else if pyStrip line = [] then (.done acc, rest)
    else collectLoop (acc ++ [pyStrip line]) rest

/-- Result of `_get_style_preference` (cli.py lines 607-637). -/
inductive StyleRes where
  | back
  | cancel
  | style (s : PyStr)
deriving DecidableEq

/-- `_get_style_preference` (cli.py lines 607-637).  With at most one
link no prompt is issued (lines 609-610).  Otherwise one line is read;
an empty line resolves to the `click.prompt` default, which is the
session's stored `style_preference` (line 623; the `.get` fallback
`'blend'` is unreachable because the key is always present). -/
def getStylePref (links : List PyStr) (sess : SessionData) :
    List PyStr → StyleRes × List PyStr
  | inputs =>
    if links.length ≤ 1 then
      (.style (links.headD "none".toList), inputs)
    else
      match inputs with
      | [] => (.cancel, [])
      | line :: rest =>
        let choice := if line = [] then sess.style_preference else line
        if pyLower choice = "back".toList then (.back, rest)
        else if pyLower choice = "cancel".toList then (.cancel, rest)
        else if pyIsDigit choice && decide (1 ≤ pyToNat choice) &&
                decide (pyToNat choice ≤ links.length) then
          (.style (links.getD (pyToNat choice - 1) []), rest)
        else (.style "blend".toList, rest)

/-- Result of `_collect_references_with_back` (cli.py lines 558-604). -/
inductive CollectRes where
  | back
  | cancel
  | ok (links : List PyStr) (style : PyStr)
deriving DecidableEq

/-- `_collect_references_with_back` (cli.py lines 558-604): run the
line-entry loop, keep the existing list when nothing new was entered
(lines 590-592), then run the style-preference sub-dialog. -/
def collectRefs (sess : SessionData) (existingRefs : List PyStr)
    (inputs : List PyStr) : CollectRes × List PyStr :=
  match collectLoop [] inputs with
  | (.back, rest) => (.back, rest)
  | (.cancel, rest) => (.cancel, rest)
  | (.done refs, rest) =>
    let links := if refs = [] ∧ existingRefs ≠ [] then existingRefs else refs
    match getStylePref links sess rest with
    | (.back, r2) => (.back, r2)
    | (.cancel, r2) => (.cancel, r2)
    | (.style s, r2) => (.ok links s, r2)

/-!
## Questionnaire engine (cli.py lines 471-555)
-/

/-- Engine state: the accumulated `answers` and the cursor `current_q`
(cli.py lines 501-502). -/
structure EngState where
  answers : Answers
  currentQ : Nat
deriving DecidableEq

/-- Result of one iteration of the questionnaire `while` loop. -/
inductive StepRes where
  | cont (st : EngState)
  | cancelled
deriving DecidableEq

/-- One iteration of the `while current_q < len(questions)` loop of
`_run_interactive_questionnaire` (cli.py lines 504-553).  An empty input
line resolves to the `click.prompt` default seeded from the session
(lines 524-531); an exhausted stream models `click.Abort` (line 552). -/
def engineStep (sess : SessionData) (st : EngState) (inputs : List PyStr) :
    StepRes × List PyStr :=
  match questions[st.currentQ]? with
  | none => (.cancelled, inputs)
  | some .refCollector =>
    match collectRefs sess sess.reference_links inputs with
    | (.back, rest) => (.cont ⟨st.answers, max 0 (st.currentQ - 1)⟩, rest)
    | (.cancel, rest) => (.cancelled, rest)
    | (.ok links style, rest) =>
      let a2 : Answers :=
        { st.answers with reference_links := some links, style_preference := some style }
      (.cont ⟨a2, st.currentQ + 1⟩, rest)
  | some (.regular key required) =>
    match inputs with
    | [] => (.cancelled, [])
    | line :: rest =>
      let answer := if line = [] then sessGet sess key else line
      if pyLower answer = "back".toList then
        if 0 < st.currentQ then (.cont ⟨st.answers, st.currentQ - 1⟩, rest)
        else (.cont ⟨st.answers, st.currentQ⟩, rest)
      else if pyLower answer = "cancel".toList then (.cancelled, rest)
      else if required = true ∧ pyStrip answer = [] then
        (.cont ⟨st.answers, st.currentQ⟩, rest)
      else (.cont ⟨setAnswer st.answers key (pyStrip answer), st.currentQ + 1⟩, rest)

lemma collectLoop_rest_le (acc : List PyStr) (inputs : List PyStr) :
    (collectLoop acc inputs).2.length ≤ inputs.length := by
  induction inputs generalizing acc with
  | nil => simp [collectLoop]
  | cons line rest ih =>
    simp only [collectLoop]
    split
    · simp
    · split
      · simp
      · split
        · simp
        · exact le_trans (ih _) (Nat.le_succ _)

lemma collectLoop_cons_le (acc : List PyStr) (line : PyStr) (rest : List PyStr) :
    (collectLoop acc (line :: rest)).2.length ≤ rest.length := by
  simp only [collectLoop]
  split
  · simp
  · split
    · simp
    · split
      · simp
      · exact collectLoop_rest_le _ _

lemma getStylePref_rest_le (links : List PyStr) (sess : SessionData)
    (inputs : List PyStr) :
    (getStylePref links sess inputs).2.length ≤ inputs.length := by
  rcases inputs with _ | ⟨line, rest⟩
  · simp only [getStylePref]
    split <;> simp
  · simp only [getStylePref]
    split
    · simp
    · split
      all_goals
        split
        · simp
        · split
          · simp
          · split <;> simp

lemma collectRefs_rest_le (sess : SessionData) (existingRefs : List PyStr)
    (line : PyStr) (rest : List PyStr) :
    (collectRefs sess existingRefs (line :: rest)).2.length ≤ rest.length := by
  have hloop := collectLoop_cons_le [] line rest
  simp only [collectRefs]
  rcases hcl : collectLoop [] (line :: rest) with ⟨r, rest1⟩
  rw [hcl] at hloop
  dsimp only at hloop
  cases r with
  | back => exact hloop
  | cancel => exact hloop
  | done refs =>
    dsimp only
    rcases hsp : getStylePref
        (if refs = [] ∧ existingRefs ≠ [] then existingRefs else refs) sess rest1
      with ⟨r2, rest2⟩
    have h2 := getStylePref_rest_le
        (if refs = [] ∧ existingRefs ≠ [] then existingRefs else refs) sess rest1
    rw [hsp] at h2
    dsimp only at h2
    cases r2 <;> dsimp only <;> omega

lemma engineStep_cancel_or_lt (sess : SessionData) (st : EngState)
    (inputs : List PyStr) :
    (engineStep sess st inputs).1 = .cancelled ∨
      (engineStep sess st inputs).2.length < inputs.length := by
  simp only [engineStep]
  match hq : questions[st.currentQ]? with
  | none => left; rfl
  | some .refCollector =>
    match inputs with
    | [] =>
      have hnil : collectRefs sess sess.reference_links [] = (.cancel, []) := rfl
      rw [hnil]
      left; rfl
    | line :: rest =>
      have h := collectRefs_rest_le sess sess.reference_links line rest
      rcases hcr : collectRefs sess sess.reference_links (line :: rest)
        with ⟨r, rest1⟩
      rw [hcr] at h
      dsimp only at h
      cases r <;> dsimp only <;> simp <;> omega
  | some (.regular key required) =>
    match inputs with
    | [] => left; rfl
    | line :: rest =>
      right
      dsimp only
      split
      all_goals
        split
        · split <;> simp
        · split
          · simp
          · split <;> simp

set_option linter.unusedVariables false in
/-- The driving `while current_q < len(questions)` loop of
`_run_interactive_questionnaire` (cli.py lines 504-555); returns `none`
for a cancelled or aborted run and the finished `answers` otherwise. -/
def runFrom (sess : SessionData) (st : EngState) (inputs : List PyStr) :
    Option Answers :=
  if st.currentQ < questions.length then
    match h : engineStep sess st inputs with
    | (.cancelled, _) => none
    | (.cont st2, rest) => runFrom sess st2 rest
  else
    some st.answers
termination_by inputs.length
decreasing_by
  rcases engineStep_cancel_or_lt sess st inputs with hc | hl
  · rw [h] at hc; exact absurd hc (by simp)
  · rw [h] at hl; exact hl

/-- `_run_interactive_questionnaire(session)` (cli.py lines 471-555),
started at `answers = {}`, `current_q = 0`. -/
def runQuestionnaire (sess : SessionData) (inputs : List PyStr) : Option Answers :=
  runFrom sess ⟨emptyAnswers, 0⟩ inputs

/-- `session.update_data(**answers)` (cli.py lines 59-62): merge the
answer keys present into the session record. -/
def applyAnswers (sess : SessionData) (a : Answers) : SessionData where
  sdk_name := a.sdk_name.getD sess.sdk_name
  sdk_language := a.sdk_language.getD sess.sdk_language
  sdk_repository := a.sdk_repository.getD sess.sdk_repository
  reference_links := a.reference_links.getD sess.reference_links
  target_framework := a.target_framework.getD sess.target_framework
  style_preference := a.style_preference.getD sess.style_preference

/-- The questionnaire-and-persist phase of the `init` command
(cli.py lines 161-168): run the questionnaire; on `None` nothing is
written, otherwise `update_data` merges the answers and saves the full
record, overwriting the store. -/
def initRun (sess : SessionData) (store : Option SessionData)
    (inputs : List PyStr) : Option Answers × Option SessionData :=
  match runQuestionnaire sess inputs with
  | none => (none, store)
  | some a => (some a, some (applyAnswers sess a))

lemma runFrom_cont (sess : SessionData) (st st2 : EngState) (inputs rest : List PyStr)
    (h5 : st.currentQ < questions.length)
    (h : engineStep sess st inputs = (.cont st2, rest)) :
    runFrom sess st inputs = runFrom sess st2 rest := by
  conv_lhs => rw [runFrom]
  rw [if_pos h5]
  split
  · rename_i heq
    rw [h] at heq
    cases heq
  · rename_i st3 rest3 heq
    rw [h] at heq
    cases heq
    rfl

lemma runFrom_cancelled (sess : SessionData) (st : EngState) (inputs : List PyStr)
    (h5 : st.currentQ < questions.length)
    (h : (engineStep sess st inputs).1 = .cancelled) :
    runFrom sess st inputs = none := by
  conv_lhs => rw [runFrom]
  rw [if_pos h5]
  split
  · rfl
  · rename_i st3 rest3 heq
    rw [heq] at h
    cases h

lemma runFrom_done (sess : SessionData) (st : EngState) (inputs : List PyStr)
    (h5 : ¬ st.currentQ < questions.length) :
    runFrom sess st inputs = some st.answers := by
  conv_lhs => rw [runFrom]
  rw [if_neg h5]

/-!
## Improvement-focus collector (cli.py lines 882-945, analysis flow)
-/

/-- The fixed `focus_options` table of `_get_improvement_focus_with_back`
(cli.py lines 888-900): ten concrete options plus "All of the above". -/
def focusOptions : List PyStr :=
  ["Writing Style & Tone".toList,
   "Content Structure & Flow".toList,
   "Code Example Quality".toList,
   "Developer Guidance & UX".toList,
   "Visual & Formatting Elements".toList,
   "Prerequisites & Environment Setup".toList,
   "Configuration & External Service Setup".toList,
   "Technology Currency & Practices".toList,
   "Error Prevention & Troubleshooting".toList,
   "Completeness & Accuracy".toList,
   "All of the above".toList]

/-- `[int(x.strip()) for x in selection.split(',')]` (cli.py line 923);
`none` models the `ValueError` caught at line 940. -/
def parseSelection (s : PyStr) : Option (List Int) :=
  (pySplit ',' s).mapM pyInt

/-- The `for num in selected_numbers` accumulation loop of
`_get_improvement_focus_with_back` (cli.py lines 926-932): in-range
numbers append their option in input order; number 11 replaces the
whole accumulator with the ten concrete options and breaks. -/
def focusLoop : List Int → List PyStr → List PyStr
  | [], acc => acc
  | n :: rest, acc =>
    if 1 ≤ n ∧ n ≤ 11 then
      if n = 11 then focusOptions.take 10
      else focusLoop rest (acc ++ [focusOptions.getD (n.toNat - 1) []])
    else focusLoop rest acc

/-- Result of `_get_improvement_focus_with_back` for one typed selection. -/
inductive FocusRes where
  | back
  | cancel
  | ok (areas : List PyStr)
deriving DecidableEq

/-- The selection handling of `_get_improvement_focus_with_back`
(cli.py lines 916-942): control tokens first, then parse (a
`ValueError` returns `back`), then the accumulation loop; an empty
result is rejected as `back`. -/
def improvementFocusChoice (selection : PyStr) : FocusRes :=
  if pyLower selection = "back".toList then .back
  else if pyLower selection = "cancel".toList then .cancel
  else
    match parseSelection selection with
    | none => .back
    | some nums =>
      let fa := focusLoop nums []
      if fa = [] then .back else .ok fa

/-!
## Persisted store as parsed JSON (cli.py lines 30-53)

`SessionManager.load_session` wraps `json.load` plus `dict.update` in a
`try` that catches only `json.JSONDecodeError` and `FileNotFoundError`.
The durable file is embedded at parse granularity: absent, or bytes that
fail to parse, or bytes parsing to a JSON value.
-/

/-- Hashable Python values that can appear as dictionary keys here. -/
inductive JKey where
  | str (s : String)
  | num (n : Int)
  | bool (b : Bool)
  | null
deriving DecidableEq

/-- JSON values as produced by `json.load` (numbers restricted to
integers; no claim touches floats). -/
inductive JValue where
  | obj (kvs : List (String × JValue))
  | arr (xs : List JValue)
  | str (s : String)
  | num (n : Int)
  | bool (b : Bool)
  | null

/-- A Python dictionary in insertion order. -/
abbrev Record := List (JKey × JValue)

/-- Exceptions that `dict.update` can raise and `load_session` does not
catch. -/
inductive PyErr where
  | typeError
  | valueError
deriving DecidableEq

/-- `d[k] = v`: replace in place if the key exists, else append. -/
def setKey : Record → JKey → JValue → Record
  | [], k, v => [(k, v)]
  | p :: rest, k, v =>
    if p.1 = k then (k, v) :: rest else p :: setKey rest k v

/-- First-match lookup in a record. -/
def recGet : Record → JKey → Option JValue
  | [], _ => none
  | p :: rest, k => if p.1 = k then some p.2 else recGet rest k

/-- One element of a sequence handed to `dict.update`: it must be an
iterable of exactly two items whose first item is hashable. -/
def updElem (d : Record) : JValue → Except PyErr Record
  | .arr [k, v] =>
    match k with
    | .str s => .ok (setKey d (.str s) v)
    | .num n => .ok (setKey d (.num n) v)
    | .bool b => .ok (setKey d (.bool b) v)
    | .null => .ok (setKey d .null v)
    | _ => .error .typeError
  | .arr _ => .error .valueError
  | .str s =>
    match s.toList with
    | [c1, c2] => .ok (setKey d (.str (String.mk [c1])) (.str (String.mk [c2])))
    | _ => .error .valueError
  | .obj kvs =>
    match kvs with
    | [k1, k2] => .ok (setKey d (.str k1.1) (.str k2.1))
    | _ => .error .valueError
  | _ => .error .typeError

/-- `self.session_data.update(x)` for an arbitrary parsed value `x`
(cli.py line 46): a mapping merges key by key; an iterable of pairs
merges elementwise; anything else raises `TypeError`, and a malformed
sequence raises `ValueError`.  Neither error is caught by
`load_session` (line 47 catches only decode and missing-file errors). -/
def foldSet (d : Record) (kvs : List (String × JValue)) : Record :=
  kvs.foldl (fun acc kv => setKey acc (.str kv.1) kv.2) d

def pyUpdate (d : Record) : JValue → Except PyErr Record
  | .obj kvs => .ok (foldSet d kvs)
  | .arr xs => xs.foldlM updElem d
  | .str s => if s.isEmpty then .ok d else .error .valueError
  | _ => .error .typeError

/-- The default `session_data` shape fixed by `SessionManager.__init__`
(cli.py lines 31-38), as a record. -/
def genDefaults : Record :=
  [(.str "sdk_name", .str ""),
   (.str "sdk_language", .str ""),
   (.str "sdk_repository", .str ""),
   (.str "reference_links", .arr []),
   (.str "target_framework", .str ""),
   (.str "style_preference", .str "")]

/-- `SessionManager.__init__` followed by `load_session` (cli.py lines
30-48): the store is absent, or fails to parse (both yield the
defaults), or parses to a value that is merged into the defaults by
`dict.update` — which can raise. -/
def loadSession (store : Option (Except Unit JValue)) : Except PyErr Record :=
  match store with
  | none => .ok genDefaults
  | some (.error _) => .ok genDefaults
  | some (.ok v) => pyUpdate genDefaults v

/-- The last binding for a string key in an association list, as kept
by iterated `d[k] = v` assignments. -/
def lastStrBinding : List (String × JValue) → JKey → Option JValue
  | [], _ => none
  | kv :: rest, k =>
    (lastStrBinding rest k).elim
      (if JKey.str kv.1 = k then some kv.2 else none) some

/-- The value a parsed store contributes for key `k`: the last binding
of a parsed object, nothing otherwise. -/
def storedVal (store : Option (Except Unit JValue)) (k : JKey) : Option JValue :=
  match store with
  | some (.ok (.obj kvs)) => lastStrBinding kvs k
  | _ => none

/-!
## Aliasing model for `get_data` (cli.py lines 55-57)

`get_data` returns `self.session_data.copy()`.  Dictionaries are heap
objects; the heap maps addresses to record contents, and `copy()`
allocates a fresh address holding the same top-level bindings.
-/

/-- A heap of dictionary objects. -/
abbrev Heap := List (Nat × Record)

/-- An address unused by any object of the heap. -/
def freshAddr (h : Heap) : Nat := (h.map Prod.fst).foldr max 0 + 1

/-- The contents of the dictionary at an address. -/
def heapGet (h : Heap) (a : Nat) : Option Record :=
  match h with
  | [] => none
  | p :: rest => if p.1 = a then some p.2 else heapGet rest a

/-- `get_data` (cli.py lines 55-57): allocate a fresh dictionary whose
contents are a top-level copy of `session_data`, and return its
address. -/
def getData (h : Heap) (a : Nat) : Nat × Heap :=
  ((freshAddr h), (freshAddr h, (heapGet h a).getD []) :: h)

/-- `d[k] = v` on the dictionary object at address `a`. -/
def heapSet (h : Heap) (a : Nat) (k : JKey) (v : JValue) : Heap :=
  h.map (fun p => if p.1 = a then (p.1, setKey p.2 k v) else p)

/-!
## Supporting lemmas
-/

/-- A fuel-indexed copy of the questionnaire loop used to evaluate
concrete runs; `runFromFuel_eq` shows it agrees with `runFrom` whenever
the fuel exceeds the number of available input lines. -/
def runFromFuel : Nat → SessionData → EngState → List PyStr → Option Answers
  | 0, _, _, _ => none
  | fuel + 1, sess, st, inputs =>
    if st.currentQ < questions.length then
      match engineStep sess st inputs with
      | (.cancelled, _) => none
      | (.cont st2, rest) => runFromFuel fuel sess st2 rest
    else some st.answers

lemma runFromFuel_eq (fuel : Nat) (sess : SessionData) (st : EngState)
    (inputs : List PyStr) (hf : inputs.length < fuel) :
    runFromFuel fuel sess st inputs = runFrom sess st inputs := by
  induction fuel generalizing st inputs with
  | zero => omega
  | succ fuel ih =>
    by_cases h5 : st.currentQ < questions.length
    · rcases hcr : engineStep sess st inputs with ⟨r, rest⟩
      cases r with
      | cancelled =>
        rw [runFrom_cancelled sess st inputs h5 (by rw [hcr])]
        simp only [runFromFuel, if_pos h5, hcr]
      | cont st2 =>
        rw [runFrom_cont sess st st2 inputs rest h5 hcr]
        simp only [runFromFuel, if_pos h5, hcr]
        apply ih
        have hlt := engineStep_cancel_or_lt sess st inputs
        rw [hcr] at hlt
        rcases hlt with hc | hl
        · simp at hc
        · dsimp only at hl
          omega
    · rw [runFrom_done sess st inputs h5]
      simp only [runFromFuel, if_neg h5]

lemma runQuestionnaire_eval (sess : SessionData) (inputs : List PyStr) :
    runQuestionnaire sess inputs =
      runFromFuel (inputs.length + 1) sess ⟨emptyAnswers, 0⟩ inputs := by
  rw [runQuestionnaire, runFromFuel_eq _ _ _ _ (Nat.lt_succ_self _)]

lemma all_space_of_strip_nil (s : PyStr) (h : pyStrip s = []) :
    ∀ c ∈ s, isSpace c = true := by
  intro c hc
  have h2 : (s.dropWhile isSpace).reverse.dropWhile isSpace = [] := by
    have := congrArg List.reverse h
    simpa [pyStrip] using this
  have hdrop : ∀ x ∈ s.dropWhile isSpace, isSpace x = true := by
    intro x hx
    exact (List.dropWhile_eq_nil_iff.mp h2) x (List.mem_reverse.mpr hx)
  rcases List.mem_append.mp
      (by rw [List.takeWhile_append_dropWhile (p := isSpace)]; exact hc) with hx | hx
  · exact List.mem_takeWhile_imp hx
  · exact hdrop c hx

lemma strip_nil_lower_head (s : PyStr) (h : pyStrip s = []) (c : Char) (w : PyStr)
    (he : pyLower s = c :: w) : ∃ a, isSpace a = true ∧ Char.toLower a = c := by
  cases s with
  | nil => simp [pyLower] at he
  | cons a t =>
    refine ⟨a, all_space_of_strip_nil _ h a (by simp), ?_⟩
    have := congrArg List.head? he
    simpa [pyLower] using this

lemma strip_nil_not_back (s : PyStr) (h : pyStrip s = []) :
    pyLower s ≠ "back".toList := by
  intro he
  obtain ⟨a, ha, hb⟩ := strip_nil_lower_head s h 'b' "ack".toList (by rw [he]; rfl)
  simp only [isSpace, Bool.or_eq_true, decide_eq_true_eq] at ha
  rcases ha with ((((rfl | rfl) | rfl) | rfl) | rfl) | rfl <;> exact absurd hb (by decide)

lemma strip_nil_not_cancel (s : PyStr) (h : pyStrip s = []) :
    pyLower s ≠ "cancel".toList := by
  intro he
  obtain ⟨a, ha, hb⟩ := strip_nil_lower_head s h 'c' "ancel".toList (by rw [he]; rfl)
  simp only [isSpace, Bool.or_eq_true, decide_eq_true_eq] at ha
  rcases ha with ((((rfl | rfl) | rfl) | rfl) | rfl) | rfl <;> exact absurd hb (by decide)

lemma focusLoop_of_mem11 (ns : List Int) (h : (11 : Int) ∈ ns) (acc : List PyStr) :
    focusLoop ns acc = focusOptions.take 10 := by
  induction ns generalizing acc with
  | nil => cases h
  | cons n rest ih =>
    simp only [focusLoop]
    by_cases h11 : n = 11
    · subst h11
      rw [if_pos (by omega), if_pos rfl]
    · have hmem : (11 : Int) ∈ rest := by
        rcases List.mem_cons.mp h with heq | hm
        · exact absurd heq.symm h11
        · exact hm
      by_cases hr : 1 ≤ n ∧ n ≤ 11
      · rw [if_pos hr, if_neg h11]
        exact ih hmem _
      · rw [if_neg hr]
        exact ih hmem _

lemma focusLoop_no11 (ns : List Int) (h : ∀ n ∈ ns, 1 ≤ n ∧ n ≤ 10) (acc : List PyStr) :
    focusLoop ns acc =
      acc ++ ns.map (fun n => focusOptions.getD (n.toNat - 1) []) := by
  induction ns generalizing acc with
  | nil => simp [focusLoop]
  | cons n rest ih =>
    have hn := h n (by simp)
    simp only [focusLoop]
    rw [if_pos ⟨hn.1, by omega⟩, if_neg (by omega),
      ih (fun m hm => h m (by simp [hm])) _]
    simp

lemma recGet_setKey_self (d : Record) (k : JKey) (v : JValue) :
    recGet (setKey d k v) k = some v := by
  induction d with
  | nil => simp [setKey, recGet]
  | cons p rest ih =>
    simp only [setKey]
    split
    · simp [recGet]
    · rename_i hne
      simp only [recGet, if_neg hne]
      exact ih

lemma recGet_setKey_ne (d : Record) (k k2 : JKey) (v : JValue) (h : k2 ≠ k) :
    recGet (setKey d k v) k2 = recGet d k2 := by
  induction d with
  | nil =>
    simp only [setKey, recGet]
    rw [if_neg (fun h2 => h h2.symm)]
  | cons p rest ih =>
    simp only [setKey]
    split
    · rename_i hpk
      simp only [recGet]
      rw [if_neg (fun h2 => h h2.symm),
        if_neg (fun h2 => h (by rw [← hpk]; exact h2.symm))]
    · simp only [recGet]
      split
      · rfl
      · exact ih

lemma recGet_foldSet (kvs : List (String × JValue)) (d : Record) (k : JKey) :
    recGet (foldSet d kvs) k = (lastStrBinding kvs k).elim (recGet d k) some := by
  induction kvs generalizing d with
  | nil => simp [foldSet, lastStrBinding, Option.elim]
  | cons kv rest ih =>
    have hstep : foldSet d (kv :: rest) = foldSet (setKey d (.str kv.1) kv.2) rest := rfl
    rw [hstep, ih]
    simp only [lastStrBinding]
    cases hl : lastStrBinding rest k with
    | some v => simp [Option.elim]
    | none =>
      simp only [Option.elim]
      by_cases hk : JKey.str kv.1 = k
      · rw [if_pos hk, ← hk, recGet_setKey_self]
      · rw [if_neg hk, recGet_setKey_ne _ _ _ _ (fun h2 => hk h2.symm)]

lemma recGet_genDefaults (k : String) (d : JValue)
    (h : (JKey.str k, d) ∈ genDefaults) : recGet genDefaults (.str k) = some d := by
  simp only [genDefaults, List.mem_cons, List.not_mem_nil, or_false,
    Prod.mk.injEq, JKey.str.injEq] at h
  rcases h with ⟨rfl, rfl⟩ | ⟨rfl, rfl⟩ | ⟨rfl, rfl⟩ | ⟨rfl, rfl⟩ | ⟨rfl, rfl⟩ | ⟨rfl, rfl⟩ <;> rfl

lemma heapGet_lt_fresh (h : Heap) (a : Nat) (d : Record)
    (hg : heapGet h a = some d) : a < freshAddr h := by
  induction h with
  | nil => simp [heapGet] at hg
  | cons p rest ih =>
    simp only [heapGet] at hg
    simp only [freshAddr, List.map_cons, List.foldr_cons]
    split at hg
    · rename_i hpa
      have : p.1 ≤ max p.1 ((rest.map Prod.fst).foldr max 0) := le_max_left _ _
      omega
    · have h2 := ih hg
      simp only [freshAddr] at h2
      have : (rest.map Prod.fst).foldr max 0 ≤ max p.1 ((rest.map Prod.fst).foldr max 0) :=
        le_max_right _ _
      omega

lemma heapGet_heapSet_ne (h : Heap) (a b : Nat) (k : JKey) (v : JValue)
    (hne : a ≠ b) : heapGet (heapSet h b k v) a = heapGet h a := by
  induction h with
  | nil => rfl
  | cons p rest ih =>
    obtain ⟨pa, pd⟩ := p
    simp only [heapSet, List.map_cons] at ih ⊢
    by_cases hpb : pa = b
    · rw [if_pos hpb]
      simp only [heapGet]
      rw [if_neg (show ¬ pa = a by omega), if_neg (show ¬ pa = a by omega)]
      exact ih
    · rw [if_neg hpb]
      simp only [heapGet]
      split
      · rfl
      · exact ih

/-!
## Claims
-/

/-- Claim C1, counterexample: with the store holding the defaults, the
run `["Widgets", "cancel"]` completes step 0 successfully (the cursor
advances to 1 and the answer is recorded in memory), the run is then
cancelled, and `init` leaves the store untouched — the answer of the
completed step was never persisted, so an interrupted session does not
resume from the last completed step. -/
theorem c1_counterexample :
    engineStep defaultSession ⟨emptyAnswers, 0⟩ ["Widgets".toList, "cancel".toList]
      = (.cont ⟨{ emptyAnswers with sdk_name := some "Widgets".toList }, 1⟩,
          ["cancel".toList]) ∧
    runQuestionnaire defaultSession ["Widgets".toList, "cancel".toList] = none ∧
    (initRun defaultSession (some defaultSession)
        ["Widgets".toList, "cancel".toList]).2 = some defaultSession ∧
    defaultSession.sdk_name = [] := by
  have hrq : runQuestionnaire defaultSession ["Widgets".toList, "cancel".toList] = none := by
    rw [runQuestionnaire_eval]; decide
  refine ⟨by decide, hrq, ?_, rfl⟩
  simp only [initRun, hrq]

/-- Claim C1 (amended): the accumulated answers are persisted exactly
once, by `init` after the whole questionnaire completes — the store
after `init` is the session overlaid with all collected answers when
the run finishes, and is exactly the prior store when the run is
cancelled; no persistence happens on individual forward cursor
advances, so an interrupted session resumes only from the last fully
completed run. -/
theorem c1_persist_only_on_completion (sess : SessionData)
    (store : Option SessionData) (inputs : List PyStr) :
    (runQuestionnaire sess inputs = none → (initRun sess store inputs).2 = store) ∧
    (∀ a, runQuestionnaire sess inputs = some a →
      (initRun sess store inputs).2 = some (applyAnswers sess a)) := by
  constructor
  · intro h
    simp only [initRun, h]
  · intro a ha
    simp only [initRun, ha]

theorem c1_witness :
    (initRun defaultSession (some defaultSession) ["cancel".toList]).2
        = some defaultSession ∧
    (initRun defaultSession none
        ["A".toList, "B".toList, [], [], "T".toList]).2
      = some (applyAnswers defaultSession
          ⟨some "A".toList, some "B".toList, some [], some "T".toList,
           some [], some "none".toList⟩) :=
  ⟨(c1_persist_only_on_completion defaultSession (some defaultSession)
      ["cancel".toList]).1 (by rw [runQuestionnaire_eval]; decide),
   (c1_persist_only_on_completion defaultSession none
      ["A".toList, "B".toList, [], [], "T".toList]).2 _
      (by rw [runQuestionnaire_eval]; decide)⟩

/-- Claim C2: typing `cancel` at any step makes that step report
cancellation, a cancelled step makes the engine return no result, and
when the engine returns no result `init` leaves the durable store
exactly as it was — answers persisted by earlier sessions are
retained. -/
theorem c2_cancel_aborts_without_persisting :
    (∀ (sess : SessionData) (st : EngState) (line : PyStr) (rest : List PyStr),
      line ≠ [] → pyLower line = "cancel".toList →
      (engineStep sess st (line :: rest)).1 = .cancelled) ∧
    (∀ (sess : SessionData) (st : EngState) (inputs : List PyStr),
      st.currentQ < questions.length →
      (engineStep sess st inputs).1 = .cancelled →
      runFrom sess st inputs = none) ∧
    (∀ (sess : SessionData) (store : Option SessionData) (inputs : List PyStr),
      runQuestionnaire sess inputs = none →
      (initRun sess store inputs).2 = store) := by
  refine ⟨?_, ?_, ?_⟩
  · intro sess st line rest hne hcan
    simp only [engineStep]
    match hq : questions[st.currentQ]? with
    | none => rfl
    | some .refCollector =>
      have hloop : collectLoop [] (line :: rest) = (.cancel, rest) := by
        simp only [collectLoop]
        rw [if_neg (by rw [hcan]; decide), if_pos hcan]
      simp [collectRefs, hloop]
    | some (.regular key required) =>
      dsimp only
      rw [if_neg hne, if_neg (by rw [hcan]; decide), if_pos hcan]
  · intro sess st inputs h5 hcan
    exact runFrom_cancelled sess st inputs h5 hcan
  · intro sess store inputs h
    simp only [initRun, h]

theorem c2_witness :
    (engineStep defaultSession ⟨emptyAnswers, 1⟩ ["cancel".toList]).1
        = .cancelled ∧
    runFrom defaultSession ⟨emptyAnswers, 0⟩ ["cancel".toList] = none ∧
    (initRun defaultSession (some defaultSession) ["cancel".toList]).2
        = some defaultSession :=
  ⟨c2_cancel_aborts_without_persisting.1 defaultSession ⟨emptyAnswers, 1⟩
      "cancel".toList [] (by decide) (by decide),
   c2_cancel_aborts_without_persisting.2.1 defaultSession ⟨emptyAnswers, 0⟩
      ["cancel".toList] (by decide) (by decide),
   c2_cancel_aborts_without_persisting.2.2 defaultSession (some defaultSession)
      ["cancel".toList] (by rw [runQuestionnaire_eval]; decide)⟩

/-- Claim C3: at the reference step (index 3), with the list
`["r1", "r2"]` just entered, answering `back` in the style-preference
sub-dialog does not re-enter the list-entry sub-dialog: the collector
propagates `back` to the engine, which moves the cursor to the
preceding question (index 2, the `sdk_repository` prompt), contradicting
the documented behaviour (and the program's own printed hint) that
`back` returns to re-editing the reference list. -/
theorem c3_style_back_leaves_reference_step :
    engineStep defaultSession ⟨emptyAnswers, 3⟩
        ["r1".toList, "r2".toList, [], "back".toList]
      = (.cont ⟨emptyAnswers, 2⟩, []) ∧
    questions[2]? = some (.regular .sdkRepository false) := by
  refine ⟨by decide, rfl⟩

/-- Claim C4, counterexample: the selection `3,3` — valid indices, no
"all of the above" — yields the option "Code Example Quality" twice,
so duplicates are not collapsed (and hence the result is not the set
of options in fixed table order). -/
theorem c4_counterexample :
    improvementFocusChoice "3,3".toList
      = .ok ["Code Example Quality".toList, "Code Example Quality".toList] ∧
    ¬ (["Code Example Quality".toList,
        "Code Example Quality".toList] : List PyStr).Nodup := by
  exact ⟨by decide, by decide⟩

/-- Claim C4 (amended): for a comma-separated input of valid 1-based
indices not including the "all of the above" index, the collector
returns the options at those indices in input order, one occurrence
per index occurrence (duplicates retained), not reordered by the
option table and not deduplicated. -/
theorem c4_input_order_duplicates_kept (s : PyStr) (ns : List Int)
    (hb : pyLower s ≠ "back".toList) (hc : pyLower s ≠ "cancel".toList)
    (hp : parseSelection s = some ns)
    (hrange : ∀ n ∈ ns, 1 ≤ n ∧ n ≤ 10)
    (hne : ns ≠ []) :
    improvementFocusChoice s
      = .ok (ns.map (fun n => focusOptions.getD (n.toNat - 1) [])) := by
  simp only [improvementFocusChoice, if_neg hb, if_neg hc, hp]
  have hfl := focusLoop_no11 ns hrange []
  rw [List.nil_append] at hfl
  rw [hfl]
  have hmap : ns.map (fun n => focusOptions.getD (n.toNat - 1) []) ≠ [] := by
    cases ns with
    | nil => exact absurd rfl hne
    | cons n t => simp
  rw [if_neg hmap]

theorem c4_witness :
    improvementFocusChoice "3,1,3".toList
      = .ok (([3, 1, 3] : List Int).map
          (fun n => focusOptions.getD (n.toNat - 1) [])) :=
  c4_input_order_duplicates_kept "3,1,3".toList [3, 1, 3] (by decide) (by decide)
    (by decide) (by decide) (by decide)

/-- Claim C5: any parsed comma-separated selection containing the
"all of the above" index 11 yields exactly the ten concrete options,
regardless of the other indices: the loop replaces the accumulator
with `focus_options[:-1]` and breaks. -/
theorem c5_all_of_the_above_short_circuit (s : PyStr) (ns : List Int)
    (hb : pyLower s ≠ "back".toList) (hc : pyLower s ≠ "cancel".toList)
    (hp : parseSelection s = some ns) (h11 : (11 : Int) ∈ ns) :
    improvementFocusChoice s = .ok (focusOptions.take 10) := by
  simp only [improvementFocusChoice, if_neg hb, if_neg hc, hp]
  rw [focusLoop_of_mem11 ns h11 [], if_neg (by decide)]

theorem c5_witness :
    improvementFocusChoice "3,11".toList = .ok (focusOptions.take 10) :=
  c5_all_of_the_above_short_circuit "3,11".toList [3, 11] (by decide) (by decide)
    (by decide) (by decide)

/-- Claim C7: the style preference over a finalized reference list is
the sentinel `none` for an empty list and the sole entry for a
one-entry list (no dialog runs, no input is consumed); for two or more
entries, a numeric input between 1 and the length selects that entry,
and any other non-control nonempty input (including `blend`) yields
`blend`. -/
theorem c7_style_preference_derivation :
    (∀ (sess : SessionData) (inputs : List PyStr),
      getStylePref [] sess inputs = (.style "none".toList, inputs)) ∧
    (∀ (sess : SessionData) (inputs : List PyStr) (l : PyStr),
      getStylePref [l] sess inputs = (.style l, inputs)) ∧
    (∀ (sess : SessionData) (links : List PyStr) (line : PyStr) (rest : List PyStr),
      2 ≤ links.length → line ≠ [] →
      pyLower line ≠ "back".toList → pyLower line ≠ "cancel".toList →
      ((pyIsDigit line = true → 1 ≤ pyToNat line → pyToNat line ≤ links.length →
          getStylePref links sess (line :: rest)
            = (.style (links.getD (pyToNat line - 1) []), rest)) ∧
        (pyIsDigit line = false ∨ pyToNat line < 1 ∨ links.length < pyToNat line →
          getStylePref links sess (line :: rest) = (.style "blend".toList, rest)))) := by
  refine ⟨?_, ?_, ?_⟩
  · intro sess inputs
    simp [getStylePref]
  · intro sess inputs l
    simp [getStylePref]
  · intro sess links line rest h2 hne hb hc
    constructor
    · intro hd h1 hle
      simp only [getStylePref]
      rw [if_neg (by omega)]
      rw [if_neg hne, if_neg hb, if_neg hc,
        if_pos (by simp only [Bool.and_eq_true, decide_eq_true_eq]; exact ⟨⟨hd, h1⟩, hle⟩)]
    · intro hinv
      simp only [getStylePref]
      rw [if_neg (by omega)]
      rw [if_neg hne, if_neg hb, if_neg hc, if_neg (by
        intro hcond
        simp only [Bool.and_eq_true, decide_eq_true_eq] at hcond
        obtain ⟨⟨hd, h1⟩, hle⟩ := hcond
        rcases hinv with hx | hx | hx
        · rw [hd] at hx; exact Bool.noConfusion hx
        · omega
        · omega)]

theorem c7_witness :
    getStylePref [] defaultSession [] = (.style "none".toList, []) ∧
    getStylePref ["a".toList] defaultSession [] = (.style "a".toList, []) ∧
    getStylePref ["a".toList, "b".toList] defaultSession ["2".toList]
        = (.style "b".toList, []) ∧
    getStylePref ["a".toList, "b".toList] defaultSession ["blend".toList]
        = (.style "blend".toList, []) :=
  ⟨c7_style_preference_derivation.1 defaultSession [],
   c7_style_preference_derivation.2.1 defaultSession [] "a".toList,
   ((c7_style_preference_derivation.2.2 defaultSession
      ["a".toList, "b".toList] "2".toList [] (by decide) (by decide)
      (by decide) (by decide)).1 (by decide) (by decide) (by decide)).trans
     (by decide),
   (c7_style_preference_derivation.2.2 defaultSession
      ["a".toList, "b".toList] "blend".toList [] (by decide) (by decide)
      (by decide) (by decide)).2 (by decide)⟩

/-- Claim C8: when the first line of the reference collector is empty
(finishing immediately) and a previous reference list exists, any
non-control outcome of the collector carries exactly the previous list
unchanged. -/
theorem c8_keep_existing_references (sess : SessionData) (existing : List PyStr)
    (inputs : List PyStr) (links : List PyStr) (style : PyStr)
    (hex : existing ≠ [])
    (hok : (collectRefs sess existing ([] :: inputs)).1 = .ok links style) :
    links = existing := by
  have hloop : collectLoop [] ([] :: inputs) = (.done [], inputs) := by
    simp only [collectLoop]
    rw [if_neg (by decide), if_neg (by decide),
      if_pos (show pyStrip ([] : PyStr) = [] from rfl)]
  simp only [collectRefs, hloop] at hok
  rw [if_pos ⟨trivial, hex⟩] at hok
  rcases hsp : getStylePref existing sess inputs with ⟨r2, rest2⟩
  rw [hsp] at hok
  cases r2 with
  | back => cases hok
  | cancel => cases hok
  | style s =>
    dsimp only at hok
    injection hok with h1 h2
    exact h1.symm

theorem c8_witness :
    (collectRefs defaultSession ["a".toList, "b".toList]
        ([] :: ["blend".toList])).1
      = .ok ["a".toList, "b".toList] "blend".toList ∧
    (["a".toList, "b".toList] : List PyStr) = ["a".toList, "b".toList] :=
  ⟨by decide,
   c8_keep_existing_references defaultSession ["a".toList, "b".toList]
     ["blend".toList] ["a".toList, "b".toList] "blend".toList
     (by decide) (by decide)⟩

/-- Claim C9: on a required regular step, an answer that resolves to an
empty or all-whitespace string leaves the engine state completely
unchanged — the same step is re-offered, the cursor does not advance,
and no answer is recorded from the rejected submission. -/
theorem c9_required_blank_no_advance (sess : SessionData) (st : EngState)
    (line : PyStr) (rest : List PyStr) (key : RegKey)
    (hq : questions[st.currentQ]? = some (.regular key true))
    (hblank : pyStrip (if line = [] then sessGet sess key else line) = []) :
    engineStep sess st (line :: rest) = (.cont st, rest) := by
  simp only [engineStep, hq]
  rw [if_neg (strip_nil_not_back _ hblank), if_neg (strip_nil_not_cancel _ hblank),
    if_pos ⟨trivial, hblank⟩]

theorem c9_witness :
    engineStep defaultSession ⟨emptyAnswers, 0⟩ (" ".toList :: [])
      = (.cont ⟨emptyAnswers, 0⟩, []) :=
  c9_required_blank_no_advance defaultSession ⟨emptyAnswers, 0⟩ " ".toList []
    .sdkName rfl (by decide)

/-- Claim C6, counterexample: a store file whose bytes are the valid
JSON document `3` parses successfully to a non-object value, and
`session_data.update(3)` raises a `TypeError` that `load_session` does
not catch — loading does raise to the caller. -/
theorem c6_counterexample :
    loadSession (some (.ok (.num 3))) = .error .typeError := rfl

/-- Claim C6 (amended): when the store file is absent, or its bytes
fail to parse, or they parse to a JSON object, loading returns without
raising a record in which every known answer key is present, holding
the stored value when the object supplies one and the empty default
otherwise; but a file holding valid non-object JSON makes the uncaught
`dict.update` error propagate to the caller. -/
theorem c6_load_defaults_overlay (store : Option (Except Unit JValue))
    (h : store = none ∨ (∃ e, store = some (.error e)) ∨
      ∃ kvs, store = some (.ok (.obj kvs))) :
    ∃ r, loadSession store = .ok r ∧
      ∀ (k : String) (d : JValue), (JKey.str k, d) ∈ genDefaults →
        recGet r (.str k) = some ((storedVal store (.str k)).getD d) := by
  rcases h with rfl | ⟨e, rfl⟩ | ⟨kvs, rfl⟩
  · refine ⟨genDefaults, rfl, fun k d hm => ?_⟩
    simpa [storedVal] using recGet_genDefaults k d hm
  · refine ⟨genDefaults, rfl, fun k d hm => ?_⟩
    simpa [storedVal] using recGet_genDefaults k d hm
  · refine ⟨foldSet genDefaults kvs, rfl, fun k d hm => ?_⟩
    rw [recGet_foldSet]
    simp only [storedVal]
    cases hl : lastStrBinding kvs (.str k) with
    | none => simpa [Option.elim] using recGet_genDefaults k d hm
    | some v => simp [Option.elim]

theorem c6_witness :
    ∃ r, loadSession (some (.ok (.obj [("sdk_name", .str "x")]))) = .ok r ∧
      ∀ (k : String) (d : JValue), (JKey.str k, d) ∈ genDefaults →
        recGet r (.str k)
          = some ((storedVal (some (.ok (.obj [("sdk_name", .str "x")])))
              (.str k)).getD d) :=
  c6_load_defaults_overlay _ (Or.inr (Or.inr ⟨_, rfl⟩))

lemma heapGet_cons (pa : Nat) (pd : Record) (rest : Heap) (a : Nat) :
    heapGet ((pa, pd) :: rest) a = if pa = a then some pd else heapGet rest a := rfl

/-- Claim C10: `get_data` returns a fresh top-level copy of the
session dictionary: binding a value to any key of the returned
dictionary leaves the contents stored at the manager's own
`session_data` address unchanged. -/
theorem c10_get_data_top_level_copy (h : Heap) (a : Nat) (d : Record)
    (k : JKey) (v : JValue) (hg : heapGet h a = some d) :
    heapGet (heapSet (getData h a).2 (getData h a).1 k v) a = some d := by
  have hlt := heapGet_lt_fresh h a d hg
  simp only [getData]
  rw [heapGet_heapSet_ne _ _ _ _ _ (show a ≠ freshAddr h by omega),
    heapGet_cons, if_neg (by omega)]
  exact hg

theorem c10_witness :
    heapGet
      (heapSet (getData [(0, genDefaults)] 0).2 (getData [(0, genDefaults)] 0).1
        (.str "sdk_name") (.str "modified")) 0
      = some genDefaults :=
  c10_get_data_top_level_copy [(0, genDefaults)] 0 genDefaults
    (.str "sdk_name") (.str "modified") rfl
